import Mathlib

set_option autoImplicit false

namespace Continact

/-!
Shallow embedding of the orchestration layer of `run.py` and
`expl-results/discrete_action/run.py`: job execution (`do_run`),
job naming (`run_trials`), artifact discovery (`expand_paths`),
metric aggregation (`aggregate_results`, `collect_metrics`),
config schema backfill (`patch_old_configs`), and the summarizer
reduction dispatch.
-/

/-- The durable side effects a single `do_run` call can perform, in the
order the source performs them: recursive deletion of a stale directory
(`shutil.rmtree`), creation of the SummaryWriter (which creates the log
directory), the two configuration dumps (`config.txt`, `config.pkl`),
the call into the external training capability (`model.learn`), and the
write of the zero-byte `completed` marker file. -/
inductive Event where
  | rmtree
  | createWriter
  | writeConfigTxt
  | writeConfigPkl
  | invokeTraining
  | writeMarker
  deriving DecidableEq, Repr

/-- Observable state of one job directory `<base>/run-<i>`:
whether the directory exists and whether `<dir>/completed` exists. -/
structure DirState where
  dirExists : Bool
  markerExists : Bool
  deriving DecidableEq, Repr

/-- Embedding of `do_run` (run.py, lines 138-172): skip when the marker
exists; otherwise delete a stale directory, write both config dumps,
invoke training, and write the marker last. `trainOk` records whether
the external training capability returns normally; when it raises, the
trace stops right after the training invocation and the marker is never
written. Returns the resulting directory state and the event trace. -/
def do_run (s : DirState) (trainOk : Bool) : DirState × List Event :=
  if s.markerExists then (s, [])
  else
    (⟨true, trainOk⟩,
      (if s.dirExists then [Event.rmtree] else []) ++
        [Event.createWriter, Event.writeConfigTxt, Event.writeConfigPkl,
          Event.invokeTraining] ++
        (if trainOk then [Event.writeMarker] else []))

/-- Running a whole job set sequentially (the executor dispatches
independent jobs; each directory belongs to exactly one job): resulting
states and the concatenated event trace. -/
def run_job_set (states : List DirState) (trainOk : Bool) :
    List DirState × List Event :=
  (states.map (fun s => (do_run s trainOk).1),
    (states.map (fun s => (do_run s trainOk).2)).flatten)

/-- A filesystem tree: an entry is either a plain file or a directory
with a list of child entries. Child names play the role of
`Path.iterdir` names in the source. -/
inductive FSTree where
  | file (name : String)
  | dir (name : String) (children : List FSTree)

/-- The name of a filesystem entry. -/
def FSTree.name : FSTree → String
  | .file n => n
  | .dir n _ => n

/-- Embedding of the guard `len({"best.pt", "config.pkl"} & names) == 2`
of `expand_paths` (run.py, line 349): both required names occur among
the children of the directory. -/
def hasRequiredEntries (cs : List FSTree) : Bool :=
  decide ("best.pt" ∈ cs.map FSTree.name) &&
    decide ("config.pkl" ∈ cs.map FSTree.name)

mutual

/-- Embedding of `expand_paths` (run.py, lines 342-352): a non-directory
yields no matches; a directory contributes itself (as the empty relative
path) when both required names are among its children, and recursion
continues into every child regardless, each child match reported under
the child name. Returns relative paths (lists of name segments) of the
matched directories. -/
def expand_paths : FSTree → List (List String)
  | .file _ => []
  | .dir _ cs =>
      (if hasRequiredEntries cs then [([] : List String)] else []) ++
        expand_paths_list cs

/-- The `paths.extend(x for c in contents for x in expand_paths(c))`
part of `expand_paths`, over the list of children. -/
def expand_paths_list : List FSTree → List (List String)
  | [] => []
  | c :: cs =>
      (expand_paths c).map (fun p => c.name :: p) ++ expand_paths_list cs

end

mutual

/-- Claim-side characterization for C4: the relative path `p`, read as a
chain of child names starting at `t`, leads to a directory whose
children include entries named `best.pt` and `config.pkl`. -/
def isMatchedAt : FSTree → List String → Bool
  | .file _, _ => false
  | .dir _ cs, [] => hasRequiredEntries cs
  | .dir _ cs, n :: p => anyMatchedChild cs n p

/-- Some child with the given name continues the matched path. -/
def anyMatchedChild : List FSTree → String → List String → Bool
  | [], _, _ => false
  | c :: cs, n, p =>
      (decide (FSTree.name c = n) && isMatchedAt c p) || anyMatchedChild cs n p

end

/-- Embedding of the job list built by `aggregate_results` (run.py,
lines 357-361): the comprehension `for d in (True, False) for p in paths`
unrolled over the two evaluation variants, one `collect_metrics` job per
(artifact, variant) pair. -/
def aggregate_jobs {π : Type} (paths : List π) : List (π × Bool) :=
  paths.map (fun p => (p, true)) ++ paths.map (fun p => (p, false))

/-- The row produced by one `collect_metrics` call (run.py, lines
308-339), restricted to the fields the counting claims are about: the
generated unique identifier, the evaluation-variant flag, and the
artifact the row came from (standing for the flattened copy of the
artifact under `vars(cfg)` and the metric columns). -/
structure MetricRow (π : Type) where
  uuid : Nat
  discretize : Bool
  artifact : π
  deriving DecidableEq, Repr

/-- Embedding of `collect_metrics` for the aggregation claims: one call
produces exactly one row whose identifier is a fresh draw from the
identifier generator (`uuid.uuid4()` modelled as an injective generator
indexed by the dispatch position). -/
def collect_metrics {π : Type} (gen : Nat → Nat) (jobIdx : Nat) (p : π)
    (d : Bool) : MetricRow π :=
  { uuid := gen jobIdx, discretize := d, artifact := p }

/-- Embedding of `aggregate_results` (run.py, lines 355-364): dispatch
`collect_metrics` over the (artifact, variant) job list and concatenate
the resulting one-row tables. -/
def aggregate_results {π : Type} (gen : Nat → Nat) (paths : List π) :
    List (MetricRow π) :=
  (aggregate_jobs paths).enum.map
    (fun x => collect_metrics gen x.1 x.2.1 x.2.2)

/-- Embedding of joblib `Parallel` error propagation: evaluate every
dispatched job; if any job raises, the whole call raises instead of
returning a result list. -/
def run_parallel {ε α : Type} : List (Except ε α) → Except ε (List α)
  | [] => Except.ok []
  | j :: js =>
      match j with
      | Except.error e => Except.error e
      | Except.ok a => Except.map (fun rs => a :: rs) (run_parallel js)

/-- The fallible view of `aggregate_results`: each (artifact, variant)
extraction may raise (`outcome`), and the results are gathered through
`run_parallel`. -/
def aggregate_resultsE {π ε α : Type} (outcome : π → Bool → Except ε α)
    (paths : List π) : Except ε (List α) :=
  run_parallel ((aggregate_jobs paths).map (fun pd => outcome pd.1 pd.2))

/-- What `aggregate_results` durably writes to `data.csv`: the line
`df.to_csv(...)` runs only after `Parallel` has returned, so nothing is
written when any extraction raised. -/
def written_table {π ε α : Type} (outcome : π → Bool → Except ε α)
    (paths : List π) : Option (List α) :=
  match aggregate_resultsE outcome paths with
  | Except.ok rows => some rows
  | Except.error _ => none

/-- The attributes of a persisted RunConfig that `patch_old_configs`
touches; `none` models an attribute absent from an old pickled config
(`hasattr` returning False). The numeric fields use exact rationals for
the float defaults 0.0 and 1.0. -/
structure RunConfigAttrs where
  obs_type : Option String
  policy_activation : Option String
  action_noise : Option Rat
  bottleneck_temperature : Option Rat
  reward_structure : Option String
  n_proc_alg : Option Nat
  discrete_action : Option Bool
  deriving DecidableEq, Repr

/-- Embedding of `patch_old_configs` (run.py, lines 204-219), one `let`
per `hasattr` guard in source order. Note the source guards the
`action_noise` backfill (line 209) with
`hasattr(cfg, "bottleneck_temperature")`, not with
`hasattr(cfg, "action_noise")`; the embedding reproduces that guard. -/
def patch_old_configs (cfg : RunConfigAttrs) : RunConfigAttrs :=
  let cfg := if cfg.obs_type = none then
    { cfg with obs_type := some "vector" } else cfg
  let cfg := if cfg.policy_activation = none then
    { cfg with policy_activation := some "tanh" } else cfg
  let cfg := if cfg.bottleneck_temperature = none then
    { cfg with action_noise := some 0 } else cfg
  let cfg := if cfg.bottleneck_temperature = none then
    { cfg with bottleneck_temperature := some 1 } else cfg
  let cfg := if cfg.reward_structure = none then
    { cfg with reward_structure := some "proximity" } else cfg
  let cfg := if cfg.n_proc_alg = none then
    { cfg with n_proc_alg := some 1 } else cfg
  let cfg := if cfg.discrete_action = none then
    { cfg with discrete_action := some false } else cfg
  cfg

/-- Python strings, as lists of characters, for the naming claims. -/
abbrev PyStr := List Char

/-- Embedding of Python `"_".join(tokens)` (run.py, line 178). -/
def join_underscore : List PyStr → PyStr
  | [] => []
  | [s] => s
  | s :: t :: ss => s ++ '_' :: join_underscore (t :: ss)

/-- Embedding of the name `run_trials` computes (run.py, line 178): the
underscore-join of the stringified values `str(getattr(cfg, prop))` of
the overridden keys. An override-set is the list of (key, stringified
value) pairs in iteration order. -/
def run_trials_name (overrides : List (PyStr × PyStr)) : PyStr :=
  join_underscore (overrides.map Prod.snd)

/-- Embedding of `base_dir / name` (run.py, line 179): pathlib drops an
empty component and otherwise appends one segment. -/
def path_join (base : List PyStr) (seg : PyStr) : List PyStr :=
  if seg = [] then base else base ++ [seg]

/-- The output directory `run_trials` derives for an override-set. -/
def run_trials_dir (base : List PyStr)
    (overrides : List (PyStr × PyStr)) : List PyStr :=
  path_join base (run_trials_name overrides)

/-- One queued training job as generated by `run_trials` (run.py, line
180): `delayed(do_run)(log_dir, cfg, i)` for `i in range(num_trials)`. -/
structure TrialJob where
  log_dir : List PyStr
  trial_idx : Nat
  deriving DecidableEq, Repr

/-- Embedding of the job generation of `run_trials` (run.py, lines
175-180). The source has no validation and no failure path here: every
override-set, the empty one included, yields `num_trials` jobs. -/
def run_trials_jobs (base : List PyStr) (overrides : List (PyStr × PyStr))
    (num_trials : Nat) : List TrialJob :=
  (List.range num_trials).map
    (fun i => { log_dir := run_trials_dir base overrides, trial_idx := i })

/-- The reductions the summarizer dispatches to
(expl-results/discrete_action/run.py, lines 11-16). -/
inductive Reduction where
  | std
  | median
  deriving DecidableEq, Repr

/-- The failure the summarizer raises for the unimplemented
standard-error reduction (`raise NotImplementedError()`, line 14). -/
inductive SummaryError where
  | notImplemented
  deriving DecidableEq, Repr

/-- The reduction-selecting options of the summarizer invocation. -/
structure SummarizeArgs where
  stddev : Bool
  stderr : Bool
  deriving DecidableEq, Repr

/-- Embedding of the reduction dispatch in `main`
(expl-results/discrete_action/run.py, lines 11-16): `std` when
`args.stddev`, otherwise raise for `args.stderr`, otherwise the default
`median`. -/
def select_reduction (args : SummarizeArgs) : Except SummaryError Reduction :=
  if args.stddev then Except.ok Reduction.std
  else if args.stderr then Except.error SummaryError.notImplemented
  else Except.ok Reduction.median

/-- C1: for a job that is not skipped (no completion marker), both
configuration dumps happen strictly before the training invocation, the
marker appears in the trace exactly when training returns successfully,
it is then the final event, and every proper prefix of the trace
(execution stopping at any earlier point) lacks the marker. -/
theorem do_run_step_ordering (d t : Bool) :
    Event.writeConfigTxt ∈ (do_run ⟨d, false⟩ t).2 ∧
    Event.writeConfigPkl ∈ (do_run ⟨d, false⟩ t).2 ∧
    Event.invokeTraining ∈ (do_run ⟨d, false⟩ t).2 ∧
    (do_run ⟨d, false⟩ t).2.indexOf Event.writeConfigTxt <
      (do_run ⟨d, false⟩ t).2.indexOf Event.invokeTraining ∧
    (do_run ⟨d, false⟩ t).2.indexOf Event.writeConfigPkl <
      (do_run ⟨d, false⟩ t).2.indexOf Event.invokeTraining ∧
    (Event.writeMarker ∈ (do_run ⟨d, false⟩ t).2 ↔ t = true) ∧
    (t = true →
      (do_run ⟨d, false⟩ t).2.getLast? = some Event.writeMarker) ∧
    (∀ n, n < (do_run ⟨d, false⟩ t).2.length →
      Event.writeMarker ∉ (do_run ⟨d, false⟩ t).2.take n) := by
  cases d <;> cases t <;> decide

/-- C1 witness: the ordering facts at a concrete input. -/
theorem do_run_step_ordering_witness :
    (true = true →
      (do_run ⟨false, false⟩ true).2.getLast? = some Event.writeMarker) ∧
    (do_run ⟨false, false⟩ true).2.indexOf Event.writeConfigTxt <
      (do_run ⟨false, false⟩ true).2.indexOf Event.invokeTraining :=
  ⟨(do_run_step_ordering false true).2.2.2.2.2.2.1,
    (do_run_step_ordering false true).2.2.2.1⟩

/-- C2: a job whose directory already carries the `completed` marker is
skipped with an empty trace (no training invocation, no file writes, no
deletion), and after one fully successful pass over any job set a second
pass over the resulting states produces no events at all, so in
particular zero training invocations: execution is idempotent. -/
theorem do_run_completed_skip (d t t' : Bool) (states : List DirState) :
    (do_run ⟨d, true⟩ t).2 = [] ∧
    (run_job_set (run_job_set states true).1 t').2 = [] := by
  constructor
  · simp [do_run]
  · induction states with
    | nil => simp [run_job_set]
    | cons s ss ih =>
      simp only [run_job_set, List.map_cons, List.flatten_cons,
        List.append_eq_nil] at *
      refine ⟨?_, ih⟩
      rcases s with ⟨sd, sm⟩
      cases sm <;> simp [do_run]

/-- C3: a job directory that exists without the marker (prior partial or
crashed attempt) is first deleted recursively, then the job proceeds
exactly as a fresh run: the trace is `rmtree` followed by the fresh-run
trace, and the final state equals the fresh-run final state. -/
theorem do_run_partial_redo (t : Bool) :
    do_run ⟨true, false⟩ t =
      ((do_run ⟨false, false⟩ t).1,
        Event.rmtree :: (do_run ⟨false, false⟩ t).2) := by
  cases t <;> rfl

theorem mem_expand_paths_list (cs : List FSTree) (q : List String) :
    q ∈ expand_paths_list cs ↔
      ∃ c ∈ cs, ∃ p, q = FSTree.name c :: p ∧ p ∈ expand_paths c := by
  induction cs with
  | nil => simp [expand_paths_list]
  | cons c cs ih =>
    simp only [expand_paths_list, List.mem_append, List.mem_map, ih,
      List.mem_cons]
    constructor
    · rintro (⟨p, hp, rfl⟩ | ⟨c', hc', p, rfl, hp⟩)
      · exact ⟨c, Or.inl rfl, p, rfl, hp⟩
      · exact ⟨c', Or.inr hc', p, rfl, hp⟩
    · rintro ⟨c', hc' | hc', p, rfl, hp⟩
      · subst hc'
        exact Or.inl ⟨p, hp, rfl⟩
      · exact Or.inr ⟨c', hc', p, rfl, hp⟩

theorem anyMatchedChild_iff (cs : List FSTree) (n : String)
    (p : List String) :
    anyMatchedChild cs n p = true ↔
      ∃ c ∈ cs, FSTree.name c = n ∧ isMatchedAt c p = true := by
  induction cs with
  | nil => simp [anyMatchedChild]
  | cons c cs ih =>
    simp only [anyMatchedChild, Bool.or_eq_true, Bool.and_eq_true,
      decide_eq_true_eq, ih, List.mem_cons]
    constructor
    · rintro (⟨hn, hm⟩ | ⟨c', hc', hn, hm⟩)
      · exact ⟨c, Or.inl rfl, hn, hm⟩
      · exact ⟨c', Or.inr hc', hn, hm⟩
    · rintro ⟨c', hc' | hc', hn, hm⟩
      · subst hc'
        exact Or.inl ⟨hn, hm⟩
      · exact Or.inr ⟨c', hc', hn, hm⟩

theorem mem_expand_paths_aux :
    ∀ (k : Nat) (t : FSTree), sizeOf t ≤ k → ∀ p : List String,
      (p ∈ expand_paths t ↔ isMatchedAt t p = true) := by
  intro k
  induction k with
  | zero =>
    intro t ht
    exfalso
    cases t <;> simp [FSTree.file.sizeOf_spec, FSTree.dir.sizeOf_spec] at ht
  | succ k ih =>
    intro t ht p
    cases t with
    | file n => simp [expand_paths, isMatchedAt]
    | dir n cs =>
      have hcs : sizeOf cs ≤ k := by
        simp only [FSTree.dir.sizeOf_spec] at ht
        omega
      cases p with
      | nil =>
        simp only [expand_paths, isMatchedAt, List.mem_append,
          mem_expand_paths_list]
        constructor
        · rintro (h | ⟨c, hc, p', hp', _⟩)
          · by_cases hreq : hasRequiredEntries cs = true
            · exact hreq
            · simp [hreq] at h
          · exact absurd hp' (by simp)
        · intro h
          exact Or.inl (by simp [h])
      | cons m p' =>
        simp only [expand_paths, isMatchedAt, List.mem_append,
          mem_expand_paths_list, anyMatchedChild_iff]
        constructor
        · rintro (h | ⟨c, hc, p'', hp'', hmem⟩)
          · by_cases hreq : hasRequiredEntries cs = true <;> simp [hreq] at h
          · injection hp'' with h1 h2
            have hc_size : sizeOf c ≤ k :=
              le_of_lt (lt_of_lt_of_le (List.sizeOf_lt_of_mem hc) hcs)
            refine ⟨c, hc, h1.symm, (ih c hc_size p').1 ?_⟩
            rw [h2]
            exact hmem
        · rintro ⟨c, hc, hm, hmatch⟩
          have hc_size : sizeOf c ≤ k :=
            le_of_lt (lt_of_lt_of_le (List.sizeOf_lt_of_mem hc) hcs)
          refine Or.inr ⟨c, hc, p', ?_, (ih c hc_size p').2 hmatch⟩
          rw [hm]

theorem mem_expand_paths (t : FSTree) (p : List String) :
    p ∈ expand_paths t ↔ isMatchedAt t p = true :=
  mem_expand_paths_aux (sizeOf t) t (le_refl _) p

/-- C4: `expand_paths` returns exactly the directories, at any depth
including the root itself (the empty relative path), whose children
include both required entries `best.pt` and `config.pkl`; in particular
matched directories are still recursed into (any matched path below a
matched directory is also in the result), directories missing either
entry contribute no match, and a non-directory input yields the empty
list rather than a failure. -/
theorem expand_paths_correct (t : FSTree) (p : List String) (n : String) :
    (p ∈ expand_paths t ↔ isMatchedAt t p = true) ∧
    expand_paths (FSTree.file n) = [] :=
  ⟨mem_expand_paths t p, rfl⟩

/-- C5: for a fixed set of discovered artifacts and an injective
identifier generator, `aggregate_results` dispatches exactly one metric
extraction per (artifact, variant) pair over the two variants, the
resulting table has exactly 2 times the number of artifacts as rows,
the generated identifiers are pairwise distinct, and mapping each row to
its (artifact, variant) pair is a bijection onto the dispatched pairs
(the row list maps exactly onto the duplicate-free job list). -/
theorem aggregate_results_rows {π : Type} (gen : Nat → Nat)
    (paths : List π) (hgen : Function.Injective gen)
    (hnd : paths.Nodup) :
    (aggregate_results gen paths).length = 2 * paths.length ∧
    ((aggregate_results gen paths).map MetricRow.uuid).Nodup ∧
    (aggregate_results gen paths).map
        (fun r => (r.artifact, r.discretize)) = aggregate_jobs paths ∧
    (aggregate_jobs paths).Nodup := by
  refine ⟨?_, ?_, ?_, ?_⟩
  · simp only [aggregate_results, aggregate_jobs, List.length_map,
      List.enum_length, List.length_append]
    omega
  · have huuid : (aggregate_results gen paths).map MetricRow.uuid =
        (List.range (aggregate_jobs paths).length).map gen := by
      unfold aggregate_results
      rw [List.map_map, ← List.enum_map_fst (aggregate_jobs paths),
        List.map_map]
      rfl
    rw [huuid]
    exact (List.nodup_range _).map hgen
  · unfold aggregate_results
    rw [List.map_map]
    conv_rhs => rw [← List.enum_map_snd (aggregate_jobs paths)]
    rfl
  · refine List.Nodup.append ?_ ?_ ?_
    · exact hnd.map (fun a b h => congrArg Prod.fst h)
    · exact hnd.map (fun a b h => congrArg Prod.fst h)
    · intro x hx1 hx2
      rw [List.mem_map] at hx1 hx2
      obtain ⟨a, _, rfl⟩ := hx1
      obtain ⟨b, _, hb⟩ := hx2
      have hft : (false : Bool) = true := congrArg Prod.snd hb
      exact absurd hft (by decide)

/-- C5 witness: the row facts at the concrete artifact set `[0, 1]`
with the identity identifier generator. -/
theorem aggregate_results_rows_witness :
    (aggregate_results id ([0, 1] : List Nat)).length =
        2 * ([0, 1] : List Nat).length ∧
    ((aggregate_results id ([0, 1] : List Nat)).map MetricRow.uuid).Nodup ∧
    (aggregate_results id ([0, 1] : List Nat)).map
        (fun r => (r.artifact, r.discretize)) =
      aggregate_jobs ([0, 1] : List Nat) ∧
    (aggregate_jobs ([0, 1] : List Nat)).Nodup :=
  aggregate_results_rows id [0, 1] (fun _ _ h => h) (by decide)

theorem run_parallel_error {ε α : Type} (js : List (Except ε α))
    (h : ∃ j ∈ js, ∃ e, j = Except.error e) :
    ∃ e, run_parallel js = Except.error e := by
  induction js with
  | nil => simp at h
  | cons j js ih =>
    obtain ⟨j', hj', e, he⟩ := h
    rw [List.mem_cons] at hj'
    rcases hj' with rfl | hj'
    · subst he
      exact ⟨e, rfl⟩
    · cases j with
      | error e' => exact ⟨e', rfl⟩
      | ok a =>
        obtain ⟨e'', he''⟩ := ih ⟨j', hj', e, he⟩
        refine ⟨e'', ?_⟩
        simp [run_parallel, he'', Except.map]

/-- C6: if any single metric extraction over the (artifact, variant)
job list fails, the whole aggregation aborts with that failure and
nothing at all is written to the `data.csv` output — no partial table,
no silently dropped rows. -/
theorem aggregation_aborts_on_failure {π ε α : Type}
    (outcome : π → Bool → Except ε α) (paths : List π)
    (h : ∃ pd ∈ aggregate_jobs paths, ∃ e,
      outcome pd.1 pd.2 = Except.error e) :
    (∃ e, aggregate_resultsE outcome paths = Except.error e) ∧
    written_table outcome paths = none := by
  obtain ⟨pd, hpd, e, he⟩ := h
  have herr : ∃ e', run_parallel ((aggregate_jobs paths).map
      (fun pd => outcome pd.1 pd.2)) = Except.error e' := by
    apply run_parallel_error
    exact ⟨outcome pd.1 pd.2, List.mem_map_of_mem _ hpd, e, he⟩
  obtain ⟨e', he'⟩ := herr
  have hE : aggregate_resultsE outcome paths = Except.error e' := he'
  refine ⟨⟨e', hE⟩, ?_⟩
  simp [written_table, hE]

/-- C6 witness: a one-artifact aggregation whose extractions all fail
aborts with the failure and writes nothing. -/
theorem aggregation_aborts_on_failure_witness :
    (∃ e, aggregate_resultsE
        (fun (_ : Unit) (_ : Bool) =>
          (Except.error "metric extraction failed" : Except String Nat))
        [()] = Except.error e) ∧
    written_table
        (fun (_ : Unit) (_ : Bool) =>
          (Except.error "metric extraction failed" : Except String Nat))
        [()] = none :=
  aggregation_aborts_on_failure _ [()]
    ⟨((), true), by decide, "metric extraction failed", rfl⟩

/-- C7 (evidence for the code bug): on a persisted config that carries
`bottleneck_temperature` but lacks `action_noise`, `patch_old_configs`
leaves `action_noise` absent, so the claimed backfill to 0.0 never
happens and the later `make_env_kwargs` attribute access fails; and on
a config lacking `bottleneck_temperature` but carrying
`action_noise = 5`, the mis-guarded backfill overwrites the present
value with 0. Both contradict the per-field backfill the claim (and the
obvious intent of the function) states. -/
theorem patch_old_configs_action_noise_bug :
    (patch_old_configs
        { obs_type := some "direction", policy_activation := some "tanh",
          action_noise := none, bottleneck_temperature := some 1,
          reward_structure := some "proximity", n_proc_alg := some 1,
          discrete_action := some false }).action_noise = none ∧
    (patch_old_configs
        { obs_type := some "direction", policy_activation := some "tanh",
          action_noise := some 5, bottleneck_temperature := none,
          reward_structure := some "proximity", n_proc_alg := some 1,
          discrete_action := some false }).action_noise = some 0 := by
  constructor <;> rfl

/-- C8 counterexample: the override-sets a=x_y and a=x,b=y are not
identical, yet `run_trials` derives the same output directory for both,
because the name is the underscore-join of the value strings alone. -/
theorem run_trials_dir_collision :
    run_trials_dir [['l', 'o', 'g']]
        [([ 'a' ], [ 'x', '_', 'y' ])] =
      run_trials_dir [['l', 'o', 'g']]
        [([ 'a' ], [ 'x' ]), ([ 'b' ], [ 'y' ])] ∧
    ([([ 'a' ], [ 'x', '_', 'y' ])] : List (PyStr × PyStr)) ≠
      [([ 'a' ], [ 'x' ]), ([ 'b' ], [ 'y' ])] := by
  decide

theorem sep_split : ∀ (s t a b : PyStr), '_' ∉ s → '_' ∉ t →
    s ++ '_' :: a = t ++ '_' :: b → s = t ∧ a = b := by
  intro s
  induction s with
  | nil =>
    intro t a b _ ht h
    cases t with
    | nil => simpa using h
    | cons c t' =>
      simp only [List.nil_append, List.cons_append] at h
      injection h with h1 h2
      refine absurd ?_ ht
      rw [← h1]
      exact List.mem_cons_self _ _
  | cons c s' ih =>
    intro t a b hs ht h
    cases t with
    | nil =>
      simp only [List.cons_append, List.nil_append] at h
      injection h with h1 h2
      refine absurd ?_ hs
      rw [h1]
      exact List.mem_cons_self _ _
    | cons d t' =>
      simp only [List.cons_append] at h
      injection h with h1 h2
      have hs' : '_' ∉ s' := fun hx => hs (List.mem_cons_of_mem _ hx)
      have ht' : '_' ∉ t' := fun hx => ht (List.mem_cons_of_mem _ hx)
      obtain ⟨he, ha⟩ := ih t' a b hs' ht' h2
      refine ⟨?_, ha⟩
      rw [h1, he]

theorem join_underscore_inj : ∀ (xs ys : List PyStr),
    xs.length = ys.length →
    (∀ v ∈ xs, '_' ∉ v) → (∀ v ∈ ys, '_' ∉ v) →
    join_underscore xs = join_underscore ys → xs = ys := by
  intro xs
  induction xs with
  | nil =>
    intro ys hlen _ _ _
    cases ys with
    | nil => rfl
    | cons y ys => simp at hlen
  | cons x xs ih =>
    intro ys hlen hx hy hj
    cases ys with
    | nil => simp at hlen
    | cons y ys =>
      cases xs with
      | nil =>
        cases ys with
        | nil =>
          simp only [join_underscore] at hj
          rw [hj]
        | cons y' ys' => simp at hlen
      | cons x' xs' =>
        cases ys with
        | nil => simp at hlen
        | cons y' ys' =>
          simp only [join_underscore] at hj
          obtain ⟨hxy, hrest⟩ := sep_split x y _ _
            (hx x (List.mem_cons_self _ _)) (hy y (List.mem_cons_self _ _))
            hj
          have htail := ih (y' :: ys') (by simpa using hlen)
            (fun v hv => hx v (List.mem_cons_of_mem _ hv))
            (fun v hv => hy v (List.mem_cons_of_mem _ hv)) hrest
          rw [hxy, htail]

theorem pair_list_ext : ∀ (l₁ l₂ : List (PyStr × PyStr)),
    l₁.map Prod.fst = l₂.map Prod.fst →
    l₁.map Prod.snd = l₂.map Prod.snd → l₁ = l₂ := by
  intro l₁
  induction l₁ with
  | nil =>
    intro l₂ h1 _
    cases l₂ with
    | nil => rfl
    | cons q l₂ => simp at h1
  | cons p l₁ ih =>
    intro l₂ h1 h2
    cases l₂ with
    | nil => simp at h1
    | cons q l₂ =>
      simp only [List.map_cons, List.cons.injEq] at h1 h2
      obtain ⟨hf, hfs⟩ := h1
      obtain ⟨hs, hss⟩ := h2
      rw [ih l₂ hfs hss]
      have : p = q := Prod.ext hf hs
      rw [this]

theorem path_join_right_inj (base : List PyStr) (s t : PyStr)
    (h : path_join base s = path_join base t) : s = t := by
  by_cases hs : s = []
  · by_cases ht : t = []
    · rw [hs, ht]
    · exfalso
      simp only [path_join, if_pos hs, if_neg ht] at h
      have := congrArg List.length h
      simp at this
  · by_cases ht : t = []
    · exfalso
      simp only [path_join, if_neg hs, if_pos ht] at h
      have := congrArg List.length h
      simp at this
    · simp only [path_join, if_neg hs, if_neg ht] at h
      have h2 := List.append_cancel_left h
      injection h2

/-- C8 amended: the naming is deterministic but not injective in
general (see the counterexample); injectivity does hold on the
separator-free fragment: two override-sets with the same overridden
keys whose stringified values contain no underscore collide on the
derived output directory only when they are genuinely identical. -/
theorem run_trials_dir_inj_of_sepfree (base : List PyStr)
    (o₁ o₂ : List (PyStr × PyStr))
    (hk : o₁.map Prod.fst = o₂.map Prod.fst)
    (h₁ : ∀ v ∈ o₁.map Prod.snd, '_' ∉ v)
    (h₂ : ∀ v ∈ o₂.map Prod.snd, '_' ∉ v)
    (hcol : run_trials_dir base o₁ = run_trials_dir base o₂) :
    o₁ = o₂ := by
  have hname : run_trials_name o₁ = run_trials_name o₂ :=
    path_join_right_inj base _ _ hcol
  have hlen : (o₁.map Prod.snd).length = (o₂.map Prod.snd).length := by
    have := congrArg List.length hk
    simpa using this
  have hsnd : o₁.map Prod.snd = o₂.map Prod.snd :=
    join_underscore_inj _ _ hlen h₁ h₂ hname
  exact pair_list_ext o₁ o₂ hk hsnd

/-- C8 amended witness: the hypotheses hold at a concrete
underscore-free override-set, and the conclusion follows by applying
the amended theorem. -/
theorem run_trials_dir_inj_of_sepfree_witness :
    ([([ 'a' ], [ 'x' ]), ([ 'b' ], [ 'y' ])] : List (PyStr × PyStr)) =
      [([ 'a' ], [ 'x' ]), ([ 'b' ], [ 'y' ])] :=
  run_trials_dir_inj_of_sepfree [['l', 'o', 'g']] _ _ rfl (by decide)
    (by decide) rfl

/-- C9 counterexample: for the empty override-set the source raises no
ConfigError and emits no warning; with one trial it silently produces a
job, and the job is degenerately named: the empty join makes pathlib
drop the component, so the output directory is the parent directory
itself — the claimed failure before any job runs does not happen. -/
theorem run_trials_jobs_empty_override :
    run_trials_jobs [['l', 'o', 'g']] [] 1 =
      [{ log_dir := [['l', 'o', 'g']], trial_idx := 0 }] := by
  decide

/-- C9 amended: an override-set referencing no keys is accepted
silently: job generation produces the full `num_trials` jobs, every one
of them addressed at the parent configuration directory itself (the
empty name collapses under the path join), with no error and no
warning. -/
theorem run_trials_jobs_empty_override_amended (base : List PyStr)
    (n : Nat) :
    run_trials_jobs base [] n =
      (List.range n).map (fun i => { log_dir := base, trial_idx := i }) := by
  simp [run_trials_jobs, run_trials_dir, run_trials_name,
    join_underscore, path_join]

/-- C10: asking the summarizer for the explicitly unimplemented
standard-error reduction fails fast with the not-implemented failure
rather than silently falling back; the supported reductions are
standard deviation (when requested) and the default, median. -/
theorem select_reduction_spec (args : SummarizeArgs) :
    (args.stderr = true → args.stddev = false →
      select_reduction args = Except.error SummaryError.notImplemented) ∧
    (args.stddev = true →
      select_reduction args = Except.ok Reduction.std) ∧
    (args.stddev = false → args.stderr = false →
      select_reduction args = Except.ok Reduction.median) := by
  obtain ⟨sd, se⟩ := args
  cases sd <;> cases se <;> simp [select_reduction]

/-- C10 witness: the three dispatch outcomes at concrete arguments. -/
theorem select_reduction_spec_witness :
    select_reduction ⟨false, true⟩ =
        Except.error SummaryError.notImplemented ∧
    select_reduction ⟨true, false⟩ = Except.ok Reduction.std ∧
    select_reduction ⟨false, false⟩ = Except.ok Reduction.median :=
  ⟨(select_reduction_spec ⟨false, true⟩).1 rfl rfl,
    (select_reduction_spec ⟨true, false⟩).2.1 rfl,
    (select_reduction_spec ⟨false, false⟩).2.2 rfl rfl⟩

end Continact
